import Mathlib

/-!
A verification development for the Figma design-document analysis core:
the recursive tree traversal, the attribute extractors, the heuristic UI
classifier, the path construction, and the aggregation/report logic.

The TypeScript sources are embedded shallowly: each JavaScript function is
transcribed as a Lean definition operating on an inductive model of the
loosely-typed JSON node tree.  JavaScript numbers are modelled as rationals,
optional/absent fields as `Option`, and the `__parent` back-reference that
the report loops write onto visited nodes as an explicit `parentF` field
updated functionally.
-/

/- ============ JavaScript-style string helpers ============ -/

/-- `beginsWithL pat l` : does `l` start with the character list `pat`. -/
def beginsWithL : List Char → List Char → Bool
  | [], _ => true
  | _ :: _, [] => false
  | p :: ps, c :: cs => p == c && beginsWithL ps cs

/-- `hasSubL l pat` : does `l` contain `pat` as a contiguous substring
(JavaScript `String.prototype.includes`). -/
def hasSubL : List Char → List Char → Bool
  | [], pat => beginsWithL pat []
  | c :: t, pat => beginsWithL pat (c :: t) || hasSubL t pat

/-- JavaScript `s.includes(pat)`. -/
def strIncludes (s pat : String) : Bool := hasSubL s.data pat.data

/-- JavaScript `s.toLowerCase()` (ASCII case fold; all classifier keywords
in the source are ASCII). -/
def strLower (s : String) : String := String.mk (s.data.map Char.toLower)

/-- JavaScript `a || b` on a possibly-absent string `a`: an absent or empty
string is falsy and falls through to `b`. -/
def jsOrS (a : Option String) (b : String) : String :=
  match a with
  | some s => if s = "" then b else s
  | none => b

/- ============ Color and hex conversion (analyze.ts rgbaToHex) ============ -/

/-- A normalized RGB color, channels in 0..1 as produced by the API. -/
structure Color where
  r : ℚ
  g : ℚ
  b : ℚ
deriving DecidableEq

/-- One fill or stroke layer on a node. -/
structure Paint where
  ptype : Option String
  pvisible : Option Bool
  pcolor : Option Color
  popacity : Option ℚ
deriving DecidableEq

/-- The record returned by `rgbaToHex` in `analyze.ts`. -/
structure HexOut where
  rgb : String
  rgba : String
  alpha255 : ℤ
deriving DecidableEq

/-- JavaScript `Math.round x = Math.floor (x + 0.5)` for finite arguments. -/
def jsRound (x : ℚ) : ℤ := ⌊x + 1 / 2⌋

/-- Round half away from zero (the spec-side description of byte rounding). -/
def roundHalfAway (x : ℚ) : ℤ :=
  if 0 ≤ x then ⌊x + 1 / 2⌋ else -⌊-x + 1 / 2⌋

/-- Uppercase hexadecimal digit. -/
def hexDigitChar (d : Nat) : Char :=
  if d < 10 then Char.ofNat (48 + d) else Char.ofNat (55 + d)

/-- Hex digits of `n`, most significant first; `fuel ≥ n + 1` suffices
(structural recursion on fuel so that the kernel can evaluate it). -/
def natHexAux : Nat → Nat → List Char
  | 0, _ => []
  | fuel + 1, n =>
    if n < 16 then [hexDigitChar n]
    else natHexAux fuel (n / 16) ++ [hexDigitChar (n % 16)]

/-- JavaScript `n.toString(16).toUpperCase()` for natural `n`. -/
def natHexStr (n : Nat) : String := String.mk (natHexAux (n + 1) n)

/-- JavaScript `s.padStart(2, "0")`. -/
def padTwo (s : String) : String :=
  if s.length = 0 then "00" else if s.length = 1 then "0" ++ s else s

/-- The `toHex` helper of `rgbaToHex`: two-digit uppercase hex with sign
preserved the way `Number.prototype.toString` renders negatives. -/
def jsHexByte (n : ℤ) : String :=
  if n < 0 then padTwo ("-" ++ natHexStr n.natAbs) else padTwo (natHexStr n.toNat)

/-- `rgbaToHex` from `analyze.ts` (the variant returning `{rgb, rgba, alpha255}`);
absent color channels default to 0. -/
def rgbaToHex (color : Option Color) (opacity : ℚ) : HexOut :=
  let r := jsRound ((match color with | some c => c.r | none => 0) * 255)
  let g := jsRound ((match color with | some c => c.g | none => 0) * 255)
  let b := jsRound ((match color with | some c => c.b | none => 0) * 255)
  let a := jsRound (opacity * 255)
  let rgb := "#" ++ jsHexByte r ++ jsHexByte g ++ jsHexByte b
  let rgba := if a < 255 then rgb ++ jsHexByte a else rgb
  ⟨rgb, rgba, a⟩

/- ============ The node model ============ -/

/-- A path of child indices identifying a node inside a page subtree
(`[]` is the page itself).  Stands in for JavaScript object identity:
the parsed JSON document is a tree, so positions and objects coincide. -/
abbrev NodePath := List Nat

/-- One node of the design-document tree.  Fields, in order:
`id name type componentId` (optional strings), `children`,
`fills strokes`, `absoluteBoundingBox.width/.height`, `size.x/.y`,
`width height` (the geometry fallback fields), `opacity`, and
`parentF` modelling the `__parent` property the report loops assign
(`none` = property absent, `some v` = property set to `v`,
where `v = none` models `undefined`).  An absent `children`/`fills`/
`strokes` array is identified with the empty list: every use in the
source is guarded by `Array.isArray(x) ? x : []`. -/
inductive Node : Type where
  | mk : (id name tp cid : Option String) →
      (children : List Node) →
      (fills strokes : List Paint) →
      (aw ah sx sy wd ht : Option ℚ) →
      (opac : Option ℚ) →
      (pf : Option (Option NodePath)) →
      Node

def Node.nid : Node → Option String
  | .mk i _ _ _ _ _ _ _ _ _ _ _ _ _ _ => i

def Node.nname : Node → Option String
  | .mk _ n _ _ _ _ _ _ _ _ _ _ _ _ _ => n

def Node.ntype : Node → Option String
  | .mk _ _ t _ _ _ _ _ _ _ _ _ _ _ _ => t

def Node.componentIdF : Node → Option String
  | .mk _ _ _ c _ _ _ _ _ _ _ _ _ _ _ => c

def Node.childrenOf : Node → List Node
  | .mk _ _ _ _ ch _ _ _ _ _ _ _ _ _ _ => ch

def Node.fillsOf : Node → List Paint
  | .mk _ _ _ _ _ f _ _ _ _ _ _ _ _ _ => f

def Node.strokesOf : Node → List Paint
  | .mk _ _ _ _ _ _ s _ _ _ _ _ _ _ _ => s

def Node.absW : Node → Option ℚ
  | .mk _ _ _ _ _ _ _ aw _ _ _ _ _ _ _ => aw

def Node.absH : Node → Option ℚ
  | .mk _ _ _ _ _ _ _ _ ah _ _ _ _ _ _ => ah

def Node.sizeX : Node → Option ℚ
  | .mk _ _ _ _ _ _ _ _ _ sx _ _ _ _ _ => sx

def Node.sizeY : Node → Option ℚ
  | .mk _ _ _ _ _ _ _ _ _ _ sy _ _ _ _ => sy

def Node.widthF : Node → Option ℚ
  | .mk _ _ _ _ _ _ _ _ _ _ _ wd _ _ _ => wd

def Node.heightF : Node → Option ℚ
  | .mk _ _ _ _ _ _ _ _ _ _ _ _ ht _ _ => ht

def Node.nopacity : Node → Option ℚ
  | .mk _ _ _ _ _ _ _ _ _ _ _ _ _ o _ => o

def Node.parentF : Node → Option (Option NodePath)
  | .mk _ _ _ _ _ _ _ _ _ _ _ _ _ _ p => p

/-- Write the `__parent` property (always making it present). -/
def setPF : Node → Option NodePath → Node
  | .mk i n t c ch f s aw ah sx sy wd ht o _, v =>
    .mk i n t c ch f s aw ah sx sy wd ht o (some v)

/-- Replace the children list, keeping every other field. -/
def replCh : Node → List Node → Node
  | .mk i n t c _ f s aw ah sx sy wd ht o p, ch =>
    .mk i n t c ch f s aw ah sx sy wd ht o p

/- ============ Attribute extractors (analyze_ui_components) ============ -/

/-- `paint.opacity ?? node.opacity ?? 1`: effective opacity of a paint. -/
def effectiveOpacity (p : Paint) (n : Node) : ℚ :=
  p.popacity.getD (n.nopacity.getD 1)

/-- `hasAnySolidFill`: some fill has type SOLID, is not explicitly
invisible, and has a (truthy, i.e. present) color object. -/
def hasAnySolidFill (n : Node) : Bool :=
  n.fillsOf.any fun p =>
    p.ptype = some "SOLID" && !(p.pvisible = some false) && p.pcolor.isSome

/-- `hasStroke`: some stroke entry is not explicitly invisible. -/
def hasStroke (n : Node) : Bool :=
  n.strokesOf.any fun s => !(s.pvisible = some false)

/-- `childTextCount`: number of immediate children of type TEXT. -/
def childTextCount (n : Node) : Nat :=
  n.childrenOf.countP fun ch => ch.ntype = some "TEXT"

/-- Icon-library name hints from `isIconComponentName`. -/
def iconHints : List String :=
  ["icon", "material-symbols", "mdi:", "majesticons:", "basil:",
   "fluent-color:", "devicon:", "ic:", "solar:", "lets-icons:",
   "iconamoon:", "fa-", "feather"]

/-- `isIconComponentName`: lower-cased name contains some icon hint. -/
def isIconComponentName (name : String) : Bool :=
  iconHints.any fun h => strIncludes (strLower name) h

/-- UI name hints from `isUiComponentName`. -/
def uiHints : List String :=
  ["button", "btn", "primary button", "secondary button",
   "card", "list item", "list-item", "item",
   "input", "text field", "textfield", "text-field", "search",
   "checkbox", "radio", "switch", "toggle",
   "dropdown", "select", "combobox",
   "chip", "badge", "pill", "tag",
   "avatar", "image avatar",
   "tab", "tabs", "navbar", "navigation", "header", "footer",
   "modal", "dialog", "sheet", "drawer", "toast", "snackbar",
   "progress", "slider", "stepper"]

/-- `isUiComponentName`: lower-cased name contains some UI hint. -/
def isUiComponentName (name : String) : Bool :=
  uiHints.any fun h => strIncludes (strLower name) h

/-- `childIconLikeCount` transcribed exactly: the two `if` statements in the
source are independent, so an INSTANCE child with an icon-like name
increments the counter in both branches. -/
def childIconLikeCount (n : Node) : Nat :=
  n.childrenOf.foldl
    (fun count ch =>
      let name := jsOrS ch.nname ""
      let c1 := if isIconComponentName name then count + 1 else count
      if ch.ntype = some "INSTANCE"
          && (match ch.nname with
              | some s => isIconComponentName s
              | none => false) then
        c1 + 1
      else c1)
    0

/-- `node?.absoluteBoundingBox?.width ?? node?.size?.x ?? node?.width`. -/
def resolvedW (n : Node) : Option ℚ :=
  match n.absW with
  | some w => some w
  | none => match n.sizeX with
    | some w => some w
    | none => n.widthF

/-- `node?.absoluteBoundingBox?.height ?? node?.size?.y ?? node?.height`. -/
def resolvedH (n : Node) : Option ℚ :=
  match n.absH with
  | some h => some h
  | none => match n.sizeY with
    | some h => some h
    | none => n.heightF

/-- `typeof x === "number" && lo <= x && x <= hi` on an optional number. -/
def numBetween (x : Option ℚ) (lo hi : ℚ) : Bool :=
  match x with
  | some v => decide (lo ≤ v) && decide (v ≤ hi)
  | none => false

/-- `typeof x === "number" && lo <= x` on an optional number. -/
def numAtLeast (x : Option ℚ) (lo : ℚ) : Bool :=
  match x with
  | some v => decide (lo ≤ v)
  | none => false

/-- The type guard at the top of `classifyStructuralUi`. -/
def isStructType (t : Option String) : Bool :=
  t = some "FRAME" || t = some "GROUP" || t = some "COMPONENT"
    || t = some "INSTANCE" || t = some "RECTANGLE"

/-- Lower-cased display name: `((node?.name as string) || "").toLowerCase()`. -/
def lowerNameOf (n : Node) : String := strLower (jsOrS n.nname "")

/-- Classifier verdicts. -/
inductive UICat : Type where
  | button
  | input
  | card
deriving DecidableEq

/-- `classifyStructuralUi` from `analyze_ui_components`: type guard, then
name-based shortcuts, then the three structural heuristics in order.
The nested `if` for the input rule is flattened into one conjunction
(the source has no effects between the two tests). -/
def classifyStructuralUi (n : Node) : Option UICat :=
  if !(isStructType n.ntype) then none
  else
    let lname := lowerNameOf n
    if strIncludes lname "button" || strIncludes lname "btn" then some .button
    else if strIncludes lname "input" || strIncludes lname "textfield"
        || strIncludes lname "text field" then some .input
    else if strIncludes lname "card" then some .card
    else if hasAnySolidFill n && decide (1 ≤ childTextCount n)
        && numBetween (resolvedH n) 28 64 then some .button
    else if (hasStroke n || hasAnySolidFill n) && numAtLeast (resolvedW n) 200
        && numBetween (resolvedH n) 34 72
        && decide (childTextCount n ≤ 1) && decide (childIconLikeCount n ≤ 2) then
      some .input
    else if hasAnySolidFill n && numAtLeast (resolvedW n) 200
        && numAtLeast (resolvedH n) 120
        && decide (2 ≤ n.childrenOf.length) then some .card
    else none

/- ============ Component dictionary and per-node report classification ============ -/

/-- Metadata of a registered component (fields used by the reports). -/
structure CompMeta where
  cname : Option String
  ckey : Option String
deriving DecidableEq

/-- `componentById`: a Map built from `Object.entries(file.components)`;
object keys are unique, lookup is by key. -/
abbrev CompDict := List (String × CompMeta)

def lookupDict (d : CompDict) (cid : String) : Option CompMeta :=
  match d with
  | [] => none
  | (k, m) :: t => if k = cid then some m else lookupDict t cid

/-- `(meta?.name as string) || (n?.name as string) || ""` — the display name
used for an INSTANCE in the UI-classification visitor. -/
def resolvedInstName (dict : CompDict) (cid : String) (n : Node) : String :=
  jsOrS ((lookupDict dict cid).bind CompMeta.cname) (jsOrS n.nname "")

/-- Display name for a structurally classified node: `(n?.name) || kind`. -/
def catFallbackName (c : UICat) : String :=
  match c with
  | .button => "button"
  | .input => "input"
  | .card => "card"

/-- The structural tail of the UI-classification visitor: classify and pair
the verdict with the item display name. -/
def classifyFallback (n : Node) : Option (String × UICat) :=
  match classifyStructuralUi n with
  | some c => some (jsOrS n.nname (catFallbackName c), c)
  | none => none

/-- The category decision of the UI-classification visitor for one node
(`analyze_ui_components` main traversal callback, minus path building):
the INSTANCE-with-componentId branch resolves the dictionary name, skips
empty and icon names, maps UI names to a kind (note the order button →
card → input used here), and only falls through to `classifyStructuralUi`
when the resolved name is neither icon-like nor UI-like. -/
def classifyNodeForReport (dict : CompDict) (n : Node) : Option (String × UICat) :=
  match decide (n.ntype = some "INSTANCE"), n.componentIdF with
  | true, some cid =>
    let nm := resolvedInstName dict cid n
    if nm = "" then none
    else if isIconComponentName nm then none
    else if isUiComponentName nm then
      let l := strLower nm
      if strIncludes l "button" || strIncludes l "btn" then some (nm, .button)
      else if strIncludes l "card" then some (nm, .card)
      else if strIncludes l "input" || strIncludes l "text field"
          || strIncludes l "textfield" then some (nm, .input)
      else none
    else classifyFallback n
  | true, none => classifyFallback n
  | false, _ => classifyFallback n

/- ============ Paths, state updates, and the mutating traversal ============ -/

/-- Node lookup by child-index path. -/
def nodeAt : Node → NodePath → Option Node
  | n, [] => some n
  | n, i :: p =>
    match n.childrenOf[i]? with
    | some c => nodeAt c p
    | none => none

mutual

/-- Functionally apply `node.__parent = v` at the node addressed by `q`;
an unreachable address leaves the tree unchanged. -/
def setParentAt : Node → NodePath → Option NodePath → Node
  | n, [], v => setPF n v
  | n, i :: p, v => replCh n (setChildAt n.childrenOf i p v)
termination_by _n q _v => (q.length, 0)

def setChildAt : List Node → Nat → NodePath → Option NodePath → List Node
  | [], _, _, _ => []
  | c :: cs, 0, p, v => setParentAt c p v :: cs
  | c :: cs, i + 1, p, v => c :: setChildAt cs i p v
termination_by l _i p _v => (p.length, l.length)

end

/-- The `__parent` property of the node addressed by `q` (absent when the
address is unreachable). -/
def parentFAt (st : Node) (q : NodePath) : Option (Option NodePath) :=
  match nodeAt st q with
  | some n => n.parentF
  | none => none

/-- The value the visitor writes into `__parent` at address `q`: `undefined`
for the page itself, otherwise (a reference to) the parent node. -/
def parentOfPath : NodePath → Option NodePath
  | [] => none
  | q@(_ :: _) => some q.dropLast

mutual

/-- Erase every `__parent` property in the tree (the projection of a node
onto the data the analyses read). -/
def stripP : Node → Node
  | .mk i n t c ch f s aw ah sx sy wd ht o _ =>
    .mk i n t c (stripPList ch) f s aw ah sx sy wd ht o none

def stripPList : List Node → List Node
  | [] => []
  | c :: cs => stripP c :: stripPList cs

end

/-- The `while (cur && cur !== page)` loop of `makePath`: push the node's
name (or id) unless empty, then follow `__parent`.  `cur = none` models
`undefined`; `some []` is the page.  Structural fuel (`q.length` at the
call site) bounds the walk; with correctly-written parent links the loop
reaches the page before the fuel runs out. -/
def walkChain (st : Node) : Nat → Option NodePath → List String → List String
  | _, none, parts => parts
  | _, some [], parts => parts
  | 0, some (_ :: _), parts => parts
  | fuel + 1, some (i :: p), parts =>
    match nodeAt st (i :: p) with
    | none => parts
    | some n =>
      let nm := jsOrS n.nname (jsOrS n.nid "")
      let parts1 := if nm = "" then parts else parts ++ [nm]
      walkChain st fuel (match n.parentF with | some v => v | none => none) parts1

/-- `makePath`: walk the `__parent` chain, append the page name, reverse,
join with " / ". -/
def makePathAt (st : Node) (pageName : String) (q : NodePath) : String :=
  String.intercalate " / " ((walkChain st q.length (some q) [] ++ [pageName]).reverse)

/-- One emitted classification item: category, display name, path. -/
abbrev Out := UICat × String × String

/-- The classification part of the visitor callback, executed on the state
in which the current node's `__parent` has just been written. -/
def visitOut (dict : CompDict) (pageName : String) (st1 : Node) (q : NodePath) :
    List Out :=
  match nodeAt st1 q with
  | none => []
  | some n =>
    match classifyNodeForReport dict n with
    | none => []
    | some (nm, cat) => [(cat, nm, makePathAt st1 pageName q)]

mutual

/-- The mutating `traverse(page, visit)` of the UI-classification report:
at each node, first write `__parent`, then classify (reading paths through
the `__parent` chain of the current state), then recurse into the children
in order.  `shape` is the original subtree rooted at the address `q`; it
drives the recursion, while all reads go through the state `st` (the
traversal only ever rewrites `__parent`, so the two stay in lockstep). -/
def travRun (dict : CompDict) (pageName : String) :
    Node → NodePath → Node → Node × List Out
  | .mk _ _ _ _ ch _ _ _ _ _ _ _ _ _ _, q, st =>
    let st1 := setParentAt st q (parentOfPath q)
    let selfOut := visitOut dict pageName st1 q
    let rest := travKids dict pageName ch q 0 st1
    (rest.1, selfOut ++ rest.2)

def travKids (dict : CompDict) (pageName : String) :
    List Node → NodePath → Nat → Node → Node × List Out
  | [], _, _, st => (st, [])
  | c :: cs, q, i, st =>
    let r1 := travRun dict pageName c (q ++ [i]) st
    let r2 := travKids dict pageName cs q (i + 1) r1.1
    (r2.1, r1.2 ++ r2.2)

end

/-- One page entry of the UI-classification report. -/
structure PageUi where
  pageName : String
  buttons : List (String × String)
  inputs : List (String × String)
  cards : List (String × String)
deriving DecidableEq

/-- Collect the (name, path) items of one category, in visit order. -/
def pickCat (c : UICat) (outs : List Out) : List (String × String) :=
  outs.filterMap fun o => if o.1 = c then some o.2 else none

/-- Process one page of the UI-classification report, returning the report
entry and the page tree as left behind by the traversal (with `__parent`
written on every node). -/
def pageRun (dict : CompDict) (p : Node) : PageUi × Node :=
  let pageName := jsOrS p.nname "(isimsiz sayfa)"
  let r := travRun dict pageName p [] p
  (⟨pageName, pickCat .button r.2, pickCat .input r.2, pickCat .card r.2⟩, r.1)

/-- The whole UI-classification report (`analyze_ui_components` main):
one entry per page; the pages are also returned as mutated. -/
def uiMain (dict : CompDict) (pages : List Node) : List PageUi × List Node :=
  (pages.map fun p => (pageRun dict p).1, pages.map fun p => (pageRun dict p).2)

/- ============ Pure reference form of the classification run ============ -/

/-- Display-or-id name (`cur?.name || cur?.id || ""`) of a node value. -/
def optNmStr (n : Node) : String := jsOrS n.nname (jsOrS n.nid "")

/-- The same name read through an address in a tree. -/
def nmOf (t : Node) (q : NodePath) : String :=
  match nodeAt t q with
  | some n => optNmStr n
  | none => ""

/-- The parts list the `makePath` loop produces for the node at `q` when
every `__parent` link along the chain is correctly written: own name first,
then each ancestor up to (excluding) the page, empty names skipped. -/
def partsSpec (t : Node) (q : NodePath) : List String :=
  match q with
  | [] => []
  | i :: p =>
    (if nmOf t (i :: p) = "" then [] else [nmOf t (i :: p)])
      ++ partsSpec t (i :: p).dropLast
termination_by q.length
decreasing_by simp [List.length_dropLast]

mutual

/-- Pure (state-free) form of the classification traversal: `selfParts` is
the parts list of this node's `__parent` chain. -/
def pureRun (dict : CompDict) (pageName : String) :
    Node → List String → List Out
  | n@(.mk _ _ _ _ ch _ _ _ _ _ _ _ _ _ _), selfParts =>
    (match classifyNodeForReport dict n with
     | none => []
     | some (nm, cat) =>
        [(cat, nm, String.intercalate " / " ((selfParts ++ [pageName]).reverse))])
    ++ pureKids dict pageName ch selfParts

def pureKids (dict : CompDict) (pageName : String) :
    List Node → List String → List Out
  | [], _ => []
  | c :: cs, sp =>
    pureRun dict pageName c ((if optNmStr c = "" then [] else [optNmStr c]) ++ sp)
      ++ pureKids dict pageName cs sp

end

/-- Prefix relation on paths: `r` addresses an ancestor-or-self of `q`. -/
def PathPre (r q : NodePath) : Prop := ∃ s, r ++ s = q

/- ============ Component-usage report (analyze_components) ============ -/

/-- `counts.set(cid, (counts.get(cid) ?? 0) + 1)` on a JavaScript `Map`
modelled as an insertion-ordered association list: an existing key is
incremented in place, a new key is appended at the end. -/
def bumpCount : List (String × Nat) → String → List (String × Nat)
  | [], cid => [(cid, 1)]
  | (k, v) :: t, cid =>
    if k = cid then (k, v + 1) :: t else (k, v) :: bumpCount t cid

mutual

/-- The counting traversal of `analyze_components` main: visit the node,
bump its `componentId` when it is an INSTANCE with a string id, then the
children in order (depth-first pre-order, matching `traverse`). -/
def instCounts : Node → List (String × Nat) → List (String × Nat)
  | .mk _ _ t c ch _ _ _ _ _ _ _ _ _ _, acc =>
    let acc1 := if t = some "INSTANCE" then
        (match c with
         | some cid => bumpCount acc cid
         | none => acc)
      else acc
    instCountsList ch acc1

def instCountsList : List Node → List (String × Nat) → List (String × Nat)
  | [], acc => acc
  | c :: cs, acc => instCountsList cs (instCounts c acc)

end

mutual

/-- Specification-side counter: the number of INSTANCE nodes in the subtree
whose `componentId` is `target` ("the number of INSTANCE nodes with that
componentId" in the spec's words). -/
def specInstanceCount : Node → String → Nat
  | .mk _ _ t c ch _ _ _ _ _ _ _ _ _ _, target =>
    (if t = some "INSTANCE" && c = some target then 1 else 0)
      + specInstanceCountList ch target

def specInstanceCountList : List Node → String → Nat
  | [], _ => 0
  | c :: cs, target => specInstanceCount c target + specInstanceCountList cs target

end

/-- One entry of `componentsUsed` in the usage report. -/
structure UsedEntry where
  componentId : String
  uname : String
  ukey : Option String
  count : Nat
deriving DecidableEq

/-- The sort comparator `(a, b) => b.count - a.count || a.name.localeCompare(b.name)`
read as "a sorts weakly before b": strictly larger count first, then
name order (localeCompare modelled as lexicographic string order). -/
def usedLE (a b : UsedEntry) : Prop :=
  b.count < a.count ∨ (a.count = b.count ∧ a.uname ≤ b.uname)

instance : DecidableRel usedLE := fun a b => by
  unfold usedLE; infer_instance

instance : IsTotal UsedEntry usedLE where
  total a b := by
    rcases Nat.lt_trichotomy a.count b.count with h | h | h
    · exact Or.inr (Or.inl h)
    · rcases le_total a.uname b.uname with h2 | h2
      · exact Or.inl (Or.inr ⟨h, h2⟩)
      · exact Or.inr (Or.inr ⟨h.symm, h2⟩)
    · exact Or.inl (Or.inl h)

instance : IsTrans UsedEntry usedLE where
  trans a b c hab hbc := by
    rcases hab with h1 | ⟨h1, h1n⟩ <;> rcases hbc with h2 | ⟨h2, h2n⟩
    · exact Or.inl (by omega)
    · exact Or.inl (by omega)
    · exact Or.inl (by omega)
    · exact Or.inr ⟨by omega, le_trans h1n h2n⟩

/-- Map a counted `componentId` to its report entry (`meta?.name ??
"(unknown component)"`, `meta?.key`). -/
def usedEntryOf (dict : CompDict) (kv : String × Nat) : UsedEntry :=
  { componentId := kv.1,
    uname := match lookupDict dict kv.1 with
      | some m => m.cname.getD "(unknown component)"
      | none => "(unknown component)",
    ukey := (lookupDict dict kv.1).bind CompMeta.ckey,
    count := kv.2 }

/-- `componentsUsed` for one page: count INSTANCE nodes by `componentId`,
resolve against the dictionary, and sort by the comparator.  JavaScript
`Array.prototype.sort` is stable and the comparator is a total preorder,
so its result is the stable sort, which `List.insertionSort` computes. -/
def componentsUsedReport (dict : CompDict) (page : Node) : List UsedEntry :=
  List.insertionSort usedLE ((instCounts page []).map (usedEntryOf dict))

/-- First-value lookup in an association list of counts. -/
def cntOf : List (String × Nat) → String → Nat
  | [], _ => 0
  | (k, v) :: t, cid => if k = cid then v else cntOf t cid

/- ============ Concrete fixtures used by witnesses and counterexamples ============ -/

/-- A node with every optional field absent. -/
def blankNode : Node :=
  .mk none none none none [] [] [] none none none none none none none none

/-- A visible solid red fill. -/
def solidRed : Paint := ⟨some "SOLID", none, some ⟨1, 0, 0⟩, none⟩

/-- A TEXT child named "OK". -/
def textChildOK : Node :=
  .mk (some "10:1") (some "OK") (some "TEXT") none [] [] []
    none none none none none none none none

/-- A FRAME named "icon button": its lower-cased name matches both an icon
keyword ("icon") and a UI keyword ("button"). -/
def iconButtonFrame : Node :=
  .mk (some "1:1") (some "icon button") (some "FRAME") none [] [] []
    none none none none none none none none

/-- A TEXT node named "Primary Button". -/
def primaryButtonText : Node :=
  .mk (some "2:1") (some "Primary Button") (some "TEXT") none [] [] []
    none none none none none none none none

/-- A FRAME named "Primary Button" with no fills and no geometry. -/
def primaryButtonFrame : Node :=
  .mk (some "2:2") (some "Primary Button") (some "FRAME") none [] [] []
    none none none none none none none none

/-- A keyword-free FRAME with a solid fill, one TEXT child, height 40. -/
def plainButtonishFrame : Node :=
  .mk (some "3:1") (some "Rectangle 5") (some "FRAME") none [textChildOK]
    [solidRed] [] (some 120) (some 40) none none none none none none

/-- An INSTANCE whose dictionary component is icon-named but whose own name
and structure are button-like. -/
def iconInstance : Node :=
  .mk (some "4:1") (some "button") (some "INSTANCE") (some "1:2") [textChildOK]
    [solidRed] [] (some 120) (some 40) none none none none none none

/-- Dictionary mapping `iconInstance`'s component id to an icon name. -/
def iconDict : CompDict := [("1:2", ⟨some "mdi:home", some "key-a"⟩)]

/-- An INSTANCE of a component whose name has both an icon and a UI keyword. -/
def iconUiInstance : Node :=
  .mk (some "4:2") (some "card") (some "INSTANCE") (some "9:9") [textChildOK]
    [solidRed] [] (some 300) (some 200) none none none none none none

/-- Dictionary for `iconUiInstance`: the name contains "mdi:" and "button". -/
def iconUiDict : CompDict := [("9:9", ⟨some "mdi:button-box", none⟩)]

/-- An INSTANCE of a component named "checkbox" (generic UI keyword only),
structurally button-like. -/
def checkboxInstance : Node :=
  .mk (some "5:1") (some "Rectangle 9") (some "INSTANCE") (some "5:5") [textChildOK]
    [solidRed] [] (some 220) (some 40) none none none none none none

/-- Dictionary for `checkboxInstance`. -/
def checkboxDict : CompDict := [("5:5", ⟨some "checkbox", none⟩)]

/-- A node whose single child is an INSTANCE with an icon-like name. -/
def oneIconChildNode : Node :=
  .mk (some "6:1") (some "Row") (some "FRAME") none
    [.mk (some "6:2") (some "mdi:home") (some "INSTANCE") (some "7:7") [] [] []
      none none none none none none none none]
    [] [] none none none none none none none none

/-- An INSTANCE of component id `cid` for the usage-report example. -/
def usageInst (idStr cid : String) : Node :=
  .mk (some idStr) (some "inst") (some "INSTANCE") (some cid) [] [] []
    none none none none none none none none

/-- A page with 4 instances of component A, 2 of B, and 1 of an unknown id. -/
def usagePage : Node :=
  .mk (some "0:1") (some "Page 1") (some "CANVAS") none
    [usageInst "i1" "A-id", usageInst "i2" "B-id", usageInst "i3" "A-id",
     usageInst "i4" "X-id", usageInst "i5" "A-id", usageInst "i6" "B-id",
     usageInst "i7" "A-id"]
    [] [] none none none none none none none none

/-- Dictionary for the usage example: A and B registered, X unknown. -/
def usageDict : CompDict :=
  [("A-id", ⟨some "A", some "key-A"⟩), ("B-id", ⟨some "B", some "key-B"⟩)]

/- ============ Claim-side formulations ============ -/

/-- The claim's button rule: solid fill, at least one immediate TEXT child,
resolved height in [28, 64]. -/
def btnRule (n : Node) : Bool :=
  hasAnySolidFill n && decide (1 ≤ childTextCount n)
    && numBetween (resolvedH n) 28 64

/-- The claim's input rule: stroke or solid fill, resolved width ≥ 200,
resolved height in [34, 72], at most one immediate TEXT child, icon-like
child count at most 2. -/
def inputRule (n : Node) : Bool :=
  (hasStroke n || hasAnySolidFill n) && numAtLeast (resolvedW n) 200
    && numBetween (resolvedH n) 34 72 && decide (childTextCount n ≤ 1)
    && decide (childIconLikeCount n ≤ 2)

/-- The claim's card rule: solid fill, width ≥ 200, height ≥ 120, at least
two children. -/
def cardRule (n : Node) : Bool :=
  hasAnySolidFill n && numAtLeast (resolvedW n) 200
    && numAtLeast (resolvedH n) 120 && decide (2 ≤ n.childrenOf.length)

/-- The `__parent` property of the first node of a list (a projection used
to exhibit that the classification run changes its input). -/
def pfOfFirst : List Node → Option (Option (Option NodePath))
  | [] => none
  | n :: _ => some n.parentF

/- ==================== Claim theorems ==================== -/

theorem str_append_empty (s : String) : s ++ "" = s := by
  apply String.ext
  simp [String.data_append]

/-- C1: for a node of type FRAME/GROUP/COMPONENT/INSTANCE/RECTANGLE whose
lower-cased name matches no classifier keyword, `classifyStructuralUi`
returns button iff the button rule holds, else input iff the input rule
holds, else card iff the card rule holds, else nothing — rules tested in
that order, first match wins; and with no resolvable width and height it
matches no rule. -/
theorem structural_classifier_cascade (n : Node)
    (ht : n.ntype = some "FRAME" ∨ n.ntype = some "GROUP"
      ∨ n.ntype = some "COMPONENT" ∨ n.ntype = some "INSTANCE"
      ∨ n.ntype = some "RECTANGLE")
    (hb : strIncludes (lowerNameOf n) "button" = false)
    (hb2 : strIncludes (lowerNameOf n) "btn" = false)
    (hi : strIncludes (lowerNameOf n) "input" = false)
    (hi2 : strIncludes (lowerNameOf n) "textfield" = false)
    (hi3 : strIncludes (lowerNameOf n) "text field" = false)
    (hc : strIncludes (lowerNameOf n) "card" = false) :
    classifyStructuralUi n =
      (if btnRule n then some UICat.button
       else if inputRule n then some UICat.input
       else if cardRule n then some UICat.card
       else none)
    ∧ (resolvedW n = none → resolvedH n = none →
        classifyStructuralUi n = none) := by
  have hst : isStructType n.ntype = true := by
    unfold isStructType
    rcases ht with h | h | h | h | h <;> simp [h]
  have hmain : classifyStructuralUi n =
      (if btnRule n then some UICat.button
       else if inputRule n then some UICat.input
       else if cardRule n then some UICat.card
       else none) := by
    unfold classifyStructuralUi btnRule inputRule cardRule
    simp only [hst, hb, hb2, hi, hi2, hi3, hc, Bool.or_self, Bool.false_or,
      Bool.or_false, Bool.not_true, Bool.false_eq_true, if_false]
  refine ⟨hmain, fun hw hh => ?_⟩
  rw [hmain]
  unfold btnRule inputRule cardRule
  rw [hw, hh]
  simp [numBetween, numAtLeast]

/-- Witness for C1: a keyword-free FRAME with a solid fill, one TEXT child
and height 40 is classified as a button by the cascade. -/
theorem structural_classifier_cascade_witness :
    classifyStructuralUi plainButtonishFrame = some UICat.button := by
  have h := structural_classifier_cascade plainButtonishFrame
    (Or.inl (by decide)) (by decide) (by decide) (by decide) (by decide)
    (by decide) (by decide)
  rw [h.1]
  decide

/-- C2: for channels and opacity in [0, 1] the canonical hex string is "#"
followed by the two-digit uppercase hex bytes of the channels rounded half
away from zero, with the alpha byte appended iff it is below 255; the
effective opacity of a paint is its own opacity, else the node's, else 1;
and the two canonicalization examples hold. -/
theorem rgba_to_hex_canonical (r g b op : ℚ)
    (hr0 : 0 ≤ r) (hr1 : r ≤ 1) (hg0 : 0 ≤ g) (hg1 : g ≤ 1)
    (hb0 : 0 ≤ b) (hb1 : b ≤ 1) (ho0 : 0 ≤ op) (ho1 : op ≤ 1) :
    ((rgbaToHex (some ⟨r, g, b⟩) op).rgba =
      "#" ++ jsHexByte (roundHalfAway (r * 255))
        ++ jsHexByte (roundHalfAway (g * 255))
        ++ jsHexByte (roundHalfAway (b * 255))
        ++ (if roundHalfAway (op * 255) < 255
            then jsHexByte (roundHalfAway (op * 255)) else ""))
    ∧ (∀ (p : Paint) (n : Node), effectiveOpacity p n =
        match p.popacity with
        | some o => o
        | none => match n.nopacity with
          | some o2 => o2
          | none => 1)
    ∧ (rgbaToHex (some ⟨1, 0, 0⟩) 1).rgba = "#FF0000"
    ∧ (rgbaToHex (some ⟨1, 0, 0⟩) (1 / 2)).rgba = "#FF000080" := by
  have hround : ∀ x : ℚ, 0 ≤ x → roundHalfAway (x * 255) = jsRound (x * 255) := by
    intro x hx
    unfold roundHalfAway jsRound
    rw [if_pos (by positivity)]
  refine ⟨?_, ?_, ?_, ?_⟩
  · rw [hround r hr0, hround g hg0, hround b hb0, hround op ho0]
    show (rgbaToHex (some ⟨r, g, b⟩) op).rgba = _
    simp only [rgbaToHex]
    by_cases hlt : jsRound (op * 255) < 255
    · rw [if_pos hlt, if_pos hlt]
    · rw [if_neg hlt, if_neg hlt, str_append_empty]
  · intro p n
    unfold effectiveOpacity
    cases p.popacity <;> cases n.nopacity <;> simp [Option.getD]
  · have h1 : (1 : ℚ) * 255 = 255 := by norm_num
    have h0 : (0 : ℚ) * 255 = 0 := by norm_num
    have j1 : jsRound (255 : ℚ) = 255 := by unfold jsRound; norm_num
    have j0 : jsRound (0 : ℚ) = 0 := by unfold jsRound; norm_num
    simp only [rgbaToHex, h1, h0, j1, j0]
    decide
  · have h1 : (1 : ℚ) * 255 = 255 := by norm_num
    have h0 : (0 : ℚ) * 255 = 0 := by norm_num
    have hh : (1 / 2 : ℚ) * 255 = 255 / 2 := by norm_num
    have j1 : jsRound (255 : ℚ) = 255 := by unfold jsRound; norm_num
    have j0 : jsRound (0 : ℚ) = 0 := by unfold jsRound; norm_num
    have jh : jsRound (255 / 2 : ℚ) = 128 := by unfold jsRound; norm_num
    simp only [rgbaToHex, h1, h0, hh, j1, j0, jh]
    decide

/-- Witness for C2: the theorem applied at r=1, g=0, b=0, opacity=1/2. -/
theorem rgba_to_hex_canonical_witness :
    (rgbaToHex (some ⟨1, 0, 0⟩) (1 / 2)).rgba = "#FF000080" :=
  (rgba_to_hex_canonical 1 0 0 (1 / 2) (by norm_num) (by norm_num) (by norm_num)
    (by norm_num) (by norm_num) (by norm_num) (by norm_num) (by norm_num)).2.2.2

/-- Reduction of the report classifier on an INSTANCE with a component id. -/
theorem classifyNodeForReport_instance (dict : CompDict) (cid : String) (n : Node)
    (ht : n.ntype = some "INSTANCE") (hc : n.componentIdF = some cid) :
    classifyNodeForReport dict n =
      (if resolvedInstName dict cid n = "" then none
       else if isIconComponentName (resolvedInstName dict cid n) then none
       else if isUiComponentName (resolvedInstName dict cid n) then
         (if strIncludes (strLower (resolvedInstName dict cid n)) "button"
             || strIncludes (strLower (resolvedInstName dict cid n)) "btn" then
            some (resolvedInstName dict cid n, UICat.button)
          else if strIncludes (strLower (resolvedInstName dict cid n)) "card" then
            some (resolvedInstName dict cid n, UICat.card)
          else if strIncludes (strLower (resolvedInstName dict cid n)) "input"
              || strIncludes (strLower (resolvedInstName dict cid n)) "text field"
              || strIncludes (strLower (resolvedInstName dict cid n)) "textfield" then
            some (resolvedInstName dict cid n, UICat.input)
          else none)
       else classifyFallback n) := by
  unfold classifyNodeForReport
  rw [ht, hc]
  simp

/-- An empty name is neither icon-like nor UI-like. -/
theorem icon_ui_empty_name :
    isIconComponentName "" = false ∧ isUiComponentName "" = false := by decide

/-- C7: an INSTANCE whose componentId resolves in the dictionary to an
icon-matching name is excluded from every classification category, whatever
its own name, geometry, fills or children; the dictionary name is the one
tested. -/
theorem icon_instance_excluded (dict : CompDict) (cid nm : String)
    (meta : CompMeta) (n : Node)
    (ht : n.ntype = some "INSTANCE") (hc : n.componentIdF = some cid)
    (hd : lookupDict dict cid = some meta) (hn : meta.cname = some nm)
    (hIcon : isIconComponentName nm = true) :
    classifyNodeForReport dict n = none := by
  have hnm : nm ≠ "" := by
    intro h
    rw [h] at hIcon
    exact absurd hIcon (by decide)
  have hres : resolvedInstName dict cid n = nm := by
    unfold resolvedInstName
    rw [hd]
    simp [Option.bind, hn, jsOrS, hnm]
  rw [classifyNodeForReport_instance dict cid n ht hc, hres,
    if_neg hnm, if_pos hIcon]

/-- Witness for C7: `iconInstance` resolves to "mdi:home" in the dictionary
and is excluded, although the structural heuristic alone would have
classified it as a button. -/
theorem icon_instance_excluded_witness :
    classifyNodeForReport iconDict iconInstance = none
    ∧ classifyStructuralUi iconInstance = some UICat.button :=
  ⟨icon_instance_excluded iconDict "1:2" "mdi:home" ⟨some "mdi:home", some "key-a"⟩
      iconInstance (by decide) (by decide) (by decide) (by decide) (by decide),
    by decide⟩

/-- C6 counterexample: a FRAME whose lower-cased name "icon button" matches
an icon keyword is nevertheless classified as a button by the classifier
(the name shortcuts of the structural path never consult icon keywords). -/
theorem icon_name_precedence_cex :
    isIconComponentName "icon button" = true
    ∧ iconButtonFrame.nname = some "icon button"
    ∧ classifyNodeForReport [] iconButtonFrame
      = some ("icon button", UICat.button) := by
  refine ⟨by decide, by decide, by decide⟩

/-- C6 amended: icon keywords take precedence over UI keywords only on the
dictionary-resolved INSTANCE path: an INSTANCE with a componentId whose
resolved name matches an icon keyword is assigned no category, even when
that name also matches a UI keyword. -/
theorem icon_precedence_instance_path (dict : CompDict) (cid : String) (n : Node)
    (ht : n.ntype = some "INSTANCE") (hc : n.componentIdF = some cid)
    (hIcon : isIconComponentName (resolvedInstName dict cid n) = true)
    (hUi : isUiComponentName (resolvedInstName dict cid n) = true) :
    classifyNodeForReport dict n = none := by
  have hnm : resolvedInstName dict cid n ≠ "" := by
    intro h
    rw [h] at hIcon
    exact absurd hIcon (by decide)
  rw [classifyNodeForReport_instance dict cid n ht hc, if_neg hnm, if_pos hIcon]

/-- Witness for C6 (amended): the component name "mdi:button-box" matches
both an icon keyword and a UI keyword, and the instance is not classified. -/
theorem icon_precedence_instance_path_witness :
    isUiComponentName "mdi:button-box" = true
    ∧ classifyNodeForReport iconUiDict iconUiInstance = none :=
  ⟨by decide,
    icon_precedence_instance_path iconUiDict "9:9" iconUiInstance
      (by decide) (by decide) (by decide) (by decide)⟩

/-- C9 counterexample: a TEXT node named "Primary Button" — its lower-cased
name contains "button", yet the classifier assigns it no category, because
the type guard precedes the name shortcuts. -/
theorem button_name_shortcut_cex :
    strIncludes (strLower "Primary Button") "button" = true
    ∧ primaryButtonText.nname = some "Primary Button"
    ∧ primaryButtonText.ntype = some "TEXT"
    ∧ classifyStructuralUi primaryButtonText = none
    ∧ classifyNodeForReport [] primaryButtonText = none := by
  refine ⟨by decide, by decide, by decide, by decide, by decide⟩

/-- C9 amended: for every node of one of the five structurally classifiable
types whose lower-cased name contains "button" or "btn", the classifier
returns button regardless of geometry or fills: the name shortcut precedes
and short-circuits the structural heuristics. -/
theorem button_name_shortcut (n : Node)
    (ht : n.ntype = some "FRAME" ∨ n.ntype = some "GROUP"
      ∨ n.ntype = some "COMPONENT" ∨ n.ntype = some "INSTANCE"
      ∨ n.ntype = some "RECTANGLE")
    (hname : strIncludes (lowerNameOf n) "button" = true
      ∨ strIncludes (lowerNameOf n) "btn" = true) :
    classifyStructuralUi n = some UICat.button := by
  have hst : isStructType n.ntype = true := by
    unfold isStructType
    rcases ht with h | h | h | h | h <;> simp [h]
  unfold classifyStructuralUi
  have hsc : (strIncludes (lowerNameOf n) "button"
      || strIncludes (lowerNameOf n) "btn") = true := by
    rcases hname with h | h <;> simp [h]
  simp only [hst, Bool.not_true, Bool.false_eq_true, if_false, hsc, if_true]

/-- Witness for C9 (amended): a FRAME named "Primary Button" with no fills
and no geometry is classified as a button. -/
theorem button_name_shortcut_witness :
    primaryButtonFrame.fillsOf = []
    ∧ resolvedH primaryButtonFrame = none
    ∧ classifyStructuralUi primaryButtonFrame = some UICat.button :=
  ⟨by decide, by decide,
    button_name_shortcut primaryButtonFrame (Or.inl (by decide))
      (Or.inl (by decide))⟩

/-- C10: an INSTANCE whose dictionary-resolved name matches a generic UI
keyword but none of the specific-kind keywords is placed in no category,
and the structural heuristics are never reached for it. -/
theorem generic_ui_instance_unclassified (dict : CompDict) (cid : String) (n : Node)
    (ht : n.ntype = some "INSTANCE") (hc : n.componentIdF = some cid)
    (hUi : isUiComponentName (resolvedInstName dict cid n) = true)
    (hkb : strIncludes (strLower (resolvedInstName dict cid n)) "button" = false)
    (hkb2 : strIncludes (strLower (resolvedInstName dict cid n)) "btn" = false)
    (hkc : strIncludes (strLower (resolvedInstName dict cid n)) "card" = false)
    (hki : strIncludes (strLower (resolvedInstName dict cid n)) "input" = false)
    (hkt : strIncludes (strLower (resolvedInstName dict cid n)) "text field" = false)
    (hkt2 : strIncludes (strLower (resolvedInstName dict cid n)) "textfield" = false) :
    classifyNodeForReport dict n = none := by
  have hnm : resolvedInstName dict cid n ≠ "" := by
    intro h
    rw [h] at hUi
    exact absurd hUi (by decide)
  rw [classifyNodeForReport_instance dict cid n ht hc, if_neg hnm]
  by_cases hic : isIconComponentName (resolvedInstName dict cid n)
  · rw [if_pos hic]
  · rw [if_neg hic, if_pos hUi]
    simp only [hkb, hkb2, hkc, hki, hkt, hkt2, Bool.or_self, Bool.or_false,
      Bool.false_or, Bool.false_eq_true, if_false]

/-- Witness for C10: an INSTANCE of a component named "checkbox" is not
classified although its structure alone would satisfy the button rule. -/
theorem generic_ui_instance_unclassified_witness :
    classifyNodeForReport checkboxDict checkboxInstance = none
    ∧ classifyStructuralUi checkboxInstance = some UICat.button :=
  ⟨generic_ui_instance_unclassified checkboxDict "5:5" checkboxInstance
      (by decide) (by decide) (by decide) (by decide) (by decide) (by decide)
      (by decide) (by decide) (by decide),
    by decide⟩

/-- C8 (code behaviour at the failing input): a node with a single INSTANCE
child named "mdi:home" has `childIconLikeCount` 2, exceeding its child
count 1 — the two independent `if` statements both fire for such a child. -/
theorem child_icon_like_double_count :
    childIconLikeCount oneIconChildNode = 2
    ∧ (Node.childrenOf oneIconChildNode).length = 1 := by
  refine ⟨by decide, by decide⟩

/- ======== Lemmas on the usage-count association list ======== -/

theorem cntOf_bump_same (l : List (String × Nat)) (cid : String) :
    cntOf (bumpCount l cid) cid = cntOf l cid + 1 := by
  induction l with
  | nil => simp [bumpCount, cntOf]
  | cons kv t ih =>
    obtain ⟨k, v⟩ := kv
    by_cases h : k = cid
    · subst h
      simp [bumpCount, cntOf]
    · simp [bumpCount, cntOf, h, ih]

theorem cntOf_bump_other (l : List (String × Nat)) (cid d : String) (h : d ≠ cid) :
    cntOf (bumpCount l cid) d = cntOf l d := by
  have h2 : ¬cid = d := fun hh => h hh.symm
  induction l with
  | nil => simp [bumpCount, cntOf, h2]
  | cons kv t ih =>
    obtain ⟨k, v⟩ := kv
    by_cases hk : k = cid
    · subst hk
      simp [bumpCount, cntOf, h2]
    · by_cases hd : k = d
      · subst hd
        simp [bumpCount, cntOf, hk]
      · simp [bumpCount, cntOf, hk, hd, ih]

theorem mem_keys_bump (l : List (String × Nat)) (cid r : String) :
    r ∈ (bumpCount l cid).map Prod.fst ↔ r ∈ l.map Prod.fst ∨ r = cid := by
  induction l with
  | nil => simp [bumpCount]
  | cons kv t ih =>
    obtain ⟨k, v⟩ := kv
    by_cases hk : k = cid
    · subst hk
      simp [bumpCount]
      tauto
    · simp [bumpCount, hk, ih]
      tauto

theorem invariants_bump (l : List (String × Nat)) (cid : String)
    (h1 : (l.map Prod.fst).Nodup) (h2 : ∀ kv ∈ l, 1 ≤ kv.2) :
    ((bumpCount l cid).map Prod.fst).Nodup ∧ ∀ kv ∈ bumpCount l cid, 1 ≤ kv.2 := by
  induction l with
  | nil =>
    refine ⟨by simp [bumpCount], ?_⟩
    intro kv hkv
    simp [bumpCount] at hkv
    simp [hkv]
  | cons kv t ih =>
    obtain ⟨k, v⟩ := kv
    simp only [List.map_cons, List.nodup_cons] at h1
    have h2t : ∀ kv ∈ t, 1 ≤ kv.2 := fun kv hkv => h2 kv (List.mem_cons_of_mem _ hkv)
    have h2h : 1 ≤ v := h2 (k, v) (List.mem_cons_self _ _)
    by_cases hk : k = cid
    · subst hk
      refine ⟨?_, ?_⟩
      · simp [bumpCount, h1.1, h1.2]
      · intro kv hkv
        simp [bumpCount] at hkv
        rcases hkv with h | h
        · simp [h]
        · exact h2t kv h
    · obtain ⟨ihn, ihp⟩ := ih h1.2 h2t
      refine ⟨?_, ?_⟩
      · simp only [bumpCount, hk, if_false, List.map_cons, List.nodup_cons]
        refine ⟨?_, ihn⟩
        intro hmem
        rcases (mem_keys_bump t cid k).mp hmem with h | h
        · exact h1.1 h
        · exact hk h
      · intro kv hkv
        simp only [bumpCount, hk, if_false, List.mem_cons] at hkv
        rcases hkv with h | h
        · subst h
          exact h2h
        · exact ihp kv h

theorem mem_keys_iff_cntOf_pos (l : List (String × Nat))
    (h : ∀ kv ∈ l, 1 ≤ kv.2) (r : String) :
    r ∈ l.map Prod.fst ↔ 1 ≤ cntOf l r := by
  induction l with
  | nil => simp [cntOf]
  | cons kv t ih =>
    obtain ⟨k, v⟩ := kv
    have ht : ∀ kv ∈ t, 1 ≤ kv.2 := fun kv hkv => h kv (List.mem_cons_of_mem _ hkv)
    by_cases hk : k = r
    · subst hk
      simp [cntOf, h (k, v) (List.mem_cons_self _ _)]
    · have hrk : ¬r = k := fun hh => hk hh.symm
      simp [cntOf, hk, hrk, ih ht]

theorem cntOf_eq_of_mem_nodup (l : List (String × Nat))
    (hnd : (l.map Prod.fst).Nodup) :
    ∀ kv ∈ l, cntOf l kv.1 = kv.2 := by
  induction l with
  | nil => simp
  | cons kv t ih =>
    obtain ⟨k, v⟩ := kv
    simp only [List.map_cons, List.nodup_cons] at hnd
    intro kv2 hkv2
    rcases List.mem_cons.mp hkv2 with h | h
    · subst h
      simp [cntOf]
    · have hne : k ≠ kv2.1 := by
        intro hh
        exact hnd.1 (hh ▸ List.mem_map_of_mem Prod.fst h)
      simp [cntOf, hne, ih hnd.2 kv2 h]

mutual

theorem cntOf_instCounts : ∀ (n : Node) (acc : List (String × Nat)) (cid : String),
    cntOf (instCounts n acc) cid = cntOf acc cid + specInstanceCount n cid
  | .mk _ _ t c ch _ _ _ _ _ _ _ _ _ _, acc, cid => by
    simp only [instCounts, specInstanceCount]
    rw [cntOf_instCountsList]
    have hacc : cntOf
        (if t = some "INSTANCE" then
          (match c with
           | some cid2 => bumpCount acc cid2
           | none => acc)
         else acc) cid
        = cntOf acc cid
          + (if (t = some "INSTANCE" && c = some cid : Bool) then 1 else 0) := by
      by_cases htI : t = some "INSTANCE"
      · cases c with
        | none => simp [htI]
        | some cid0 =>
          by_cases hc : cid0 = cid
          · subst hc
            simp [htI, cntOf_bump_same]
          · have : ¬(some cid0 = some cid) := by simp [hc]
            simp [htI, this, cntOf_bump_other acc cid0 cid (fun hh => hc hh.symm)]
      · simp [htI]
    rw [hacc]
    omega

theorem cntOf_instCountsList : ∀ (l : List Node) (acc : List (String × Nat))
      (cid : String),
    cntOf (instCountsList l acc) cid
      = cntOf acc cid + specInstanceCountList l cid
  | [], acc, cid => by simp [instCountsList, specInstanceCountList]
  | ch :: cs, acc, cid => by
    simp only [instCountsList, specInstanceCountList]
    rw [cntOf_instCountsList cs, cntOf_instCounts ch]
    omega

end

mutual

theorem invariants_instCounts : ∀ (n : Node) (acc : List (String × Nat)),
    (acc.map Prod.fst).Nodup → (∀ kv ∈ acc, 1 ≤ kv.2) →
    ((instCounts n acc).map Prod.fst).Nodup ∧ ∀ kv ∈ instCounts n acc, 1 ≤ kv.2
  | .mk _ _ t c ch _ _ _ _ _ _ _ _ _ _, acc => by
    intro h1 h2
    simp only [instCounts]
    apply invariants_instCountsList
    · by_cases htI : t = some "INSTANCE"
      · cases c with
        | none => simpa [htI] using h1
        | some cid0 => simpa [htI] using (invariants_bump acc cid0 h1 h2).1
      · simpa [htI] using h1
    · by_cases htI : t = some "INSTANCE"
      · cases c with
        | none => simpa [htI] using h2
        | some cid0 => simpa [htI] using (invariants_bump acc cid0 h1 h2).2
      · simpa [htI] using h2

theorem invariants_instCountsList : ∀ (l : List Node) (acc : List (String × Nat)),
    (acc.map Prod.fst).Nodup → (∀ kv ∈ acc, 1 ≤ kv.2) →
    ((instCountsList l acc).map Prod.fst).Nodup
      ∧ ∀ kv ∈ instCountsList l acc, 1 ≤ kv.2
  | [], acc => by
    intro h1 h2
    simp only [instCountsList]
    exact ⟨h1, h2⟩
  | ch :: cs, acc => by
    intro h1 h2
    simp only [instCountsList]
    obtain ⟨g1, g2⟩ := invariants_instCounts ch acc h1 h2
    exact invariants_instCountsList cs _ g1 g2

end

/-- C5: the per-page component-usage list has one entry per distinct
componentId of an INSTANCE under the page, each entry's count is the number
of such instances, ids missing from the dictionary are reported as
"(unknown component)", the list is sorted by descending count with ties
broken by ascending name, and the 4/2/1 example produces A:4, B:2 and one
unknown entry with count 1, in that order. -/
theorem component_usage_report (dict : CompDict) (page : Node) :
    (((componentsUsedReport dict page).map UsedEntry.componentId).Nodup)
    ∧ (∀ cid : String,
        (∃ e ∈ componentsUsedReport dict page, e.componentId = cid)
          ↔ 1 ≤ specInstanceCount page cid)
    ∧ (∀ e ∈ componentsUsedReport dict page,
        e.count = specInstanceCount page e.componentId)
    ∧ (∀ e ∈ componentsUsedReport dict page,
        lookupDict dict e.componentId = none → e.uname = "(unknown component)")
    ∧ List.Pairwise usedLE (componentsUsedReport dict page)
    ∧ componentsUsedReport usageDict usagePage =
        [⟨"A-id", "A", some "key-A", 4⟩, ⟨"B-id", "B", some "key-B", 2⟩,
         ⟨"X-id", "(unknown component)", none, 1⟩] := by
  have hperm : (componentsUsedReport dict page).Perm
      ((instCounts page []).map (usedEntryOf dict)) :=
    List.perm_insertionSort usedLE _
  have hinv := invariants_instCounts page [] (by simp) (by simp)
  have hcnt : ∀ cid, cntOf (instCounts page []) cid = specInstanceCount page cid := by
    intro cid
    rw [cntOf_instCounts page [] cid]
    simp [cntOf]
  have hkeys : ((instCounts page []).map (usedEntryOf dict)).map UsedEntry.componentId
      = (instCounts page []).map Prod.fst := by
    rw [List.map_map]
    rfl
  refine ⟨?_, ?_, ?_, ?_, ?_, ?_⟩
  · have hp2 := hperm.map UsedEntry.componentId
    rw [hkeys] at hp2
    exact hp2.nodup_iff.mpr hinv.1
  · intro cid
    have hmem : (∃ e ∈ componentsUsedReport dict page, e.componentId = cid)
        ↔ cid ∈ (instCounts page []).map Prod.fst := by
      rw [← hkeys]
      constructor
      · rintro ⟨e, he, hecid⟩
        have hm : e.componentId
            ∈ ((instCounts page []).map (usedEntryOf dict)).map UsedEntry.componentId :=
          List.mem_map_of_mem _ (hperm.mem_iff.mp he)
        rw [hecid] at hm
        exact hm
      · intro hm
        obtain ⟨e, he, hecid⟩ := List.mem_map.mp hm
        exact ⟨e, hperm.mem_iff.mpr he, hecid⟩
    rw [hmem, mem_keys_iff_cntOf_pos _ hinv.2, hcnt]
  · intro e he
    obtain ⟨kv, hkv, hekv⟩ := List.mem_map.mp (hperm.mem_iff.mp he)
    have h1 : e.count = kv.2 := by rw [← hekv]; rfl
    have h2 : e.componentId = kv.1 := by rw [← hekv]; rfl
    rw [h1, h2, ← hcnt kv.1, cntOf_eq_of_mem_nodup _ hinv.1 kv hkv]
  · intro e he hnone
    obtain ⟨kv, hkv, hekv⟩ := List.mem_map.mp (hperm.mem_iff.mp he)
    have h2 : e.componentId = kv.1 := by rw [← hekv]; rfl
    rw [h2] at hnone
    rw [← hekv]
    simp [usedEntryOf, hnone]
  · exact List.sorted_insertionSort usedLE _
  · have h : instCounts usagePage [] = [("A-id", 4), ("B-id", 2), ("X-id", 1)] := by
      simp [usagePage, usageInst, instCounts, instCountsList, bumpCount]
    unfold componentsUsedReport
    rw [h]
    decide

/-- Witness for C5: the concrete 4/2/1 usage example. -/
theorem component_usage_report_witness :
    componentsUsedReport usageDict usagePage =
      [⟨"A-id", "A", some "key-A", 4⟩, ⟨"B-id", "B", some "key-B", 2⟩,
       ⟨"X-id", "(unknown component)", none, 1⟩] :=
  (component_usage_report usageDict usagePage).2.2.2.2.2

/- ======== Lemmas on stripping the parent back-reference ======== -/

theorem stripP_mk (i n t c : Option String) (ch : List Node) (f s : List Paint)
    (aw ah sx sy wd ht : Option ℚ) (o : Option ℚ) (p : Option (Option NodePath)) :
    stripP (.mk i n t c ch f s aw ah sx sy wd ht o p)
      = .mk i n t c (stripPList ch) f s aw ah sx sy wd ht o none := by
  simp [stripP]

theorem nid_stripP (n : Node) : (stripP n).nid = n.nid := by
  cases n
  rw [stripP_mk]
  rfl

theorem nname_stripP (n : Node) : (stripP n).nname = n.nname := by
  cases n
  rw [stripP_mk]
  rfl

theorem ntype_stripP (n : Node) : (stripP n).ntype = n.ntype := by
  cases n
  rw [stripP_mk]
  rfl

theorem componentIdF_stripP (n : Node) : (stripP n).componentIdF = n.componentIdF := by
  cases n
  rw [stripP_mk]
  rfl

theorem childrenOf_stripP (n : Node) :
    (stripP n).childrenOf = stripPList n.childrenOf := by
  cases n
  rw [stripP_mk]
  rfl

theorem fillsOf_stripP (n : Node) : (stripP n).fillsOf = n.fillsOf := by
  cases n
  rw [stripP_mk]
  rfl

theorem strokesOf_stripP (n : Node) : (stripP n).strokesOf = n.strokesOf := by
  cases n
  rw [stripP_mk]
  rfl

theorem absW_stripP (n : Node) : (stripP n).absW = n.absW := by
  cases n
  rw [stripP_mk]
  rfl

theorem absH_stripP (n : Node) : (stripP n).absH = n.absH := by
  cases n
  rw [stripP_mk]
  rfl

theorem sizeX_stripP (n : Node) : (stripP n).sizeX = n.sizeX := by
  cases n
  rw [stripP_mk]
  rfl

theorem sizeY_stripP (n : Node) : (stripP n).sizeY = n.sizeY := by
  cases n
  rw [stripP_mk]
  rfl

theorem widthF_stripP (n : Node) : (stripP n).widthF = n.widthF := by
  cases n
  rw [stripP_mk]
  rfl

theorem heightF_stripP (n : Node) : (stripP n).heightF = n.heightF := by
  cases n
  rw [stripP_mk]
  rfl

theorem nopacity_stripP (n : Node) : (stripP n).nopacity = n.nopacity := by
  cases n
  rw [stripP_mk]
  rfl

theorem stripPList_getElem (l : List Node) (i : Nat) :
    (stripPList l)[i]? = l[i]?.map stripP := by
  induction l generalizing i with
  | nil => simp [stripPList]
  | cons c cs ih =>
    cases i with
    | zero => simp [stripPList]
    | succ j => simpa [stripPList] using ih j

theorem stripPList_length (l : List Node) :
    (stripPList l).length = l.length := by
  induction l with
  | nil => simp [stripPList]
  | cons c cs ih => simp [stripPList, ih]

theorem foldl_stripPList {β : Type} (f : β → Node → β)
    (hf : ∀ b c, f b (stripP c) = f b c) :
    ∀ (l : List Node) (b : β), (stripPList l).foldl f b = l.foldl f b := by
  intro l
  induction l with
  | nil => intro b; simp [stripPList]
  | cons c cs ih =>
    intro b
    simp only [stripPList, List.foldl_cons, hf, ih]

theorem childTextCount_stripP (n : Node) :
    childTextCount (stripP n) = childTextCount n := by
  unfold childTextCount
  rw [childrenOf_stripP]
  induction n.childrenOf with
  | nil => simp [stripPList]
  | cons c cs ih => simp [stripPList, List.countP_cons, ih, ntype_stripP]

theorem childIconLikeCount_stripP (n : Node) :
    childIconLikeCount (stripP n) = childIconLikeCount n := by
  unfold childIconLikeCount
  rw [childrenOf_stripP]
  exact foldl_stripPList _ (fun b c => by simp only [nname_stripP, ntype_stripP])
    n.childrenOf 0

theorem hasAnySolidFill_stripP (n : Node) :
    hasAnySolidFill (stripP n) = hasAnySolidFill n := by
  unfold hasAnySolidFill
  rw [fillsOf_stripP]

theorem hasStroke_stripP (n : Node) : hasStroke (stripP n) = hasStroke n := by
  unfold hasStroke
  rw [strokesOf_stripP]

theorem resolvedW_stripP (n : Node) : resolvedW (stripP n) = resolvedW n := by
  unfold resolvedW
  rw [absW_stripP, sizeX_stripP, widthF_stripP]

theorem resolvedH_stripP (n : Node) : resolvedH (stripP n) = resolvedH n := by
  unfold resolvedH
  rw [absH_stripP, sizeY_stripP, heightF_stripP]

theorem lowerNameOf_stripP (n : Node) : lowerNameOf (stripP n) = lowerNameOf n := by
  unfold lowerNameOf
  rw [nname_stripP]

theorem optNmStr_stripP (n : Node) : optNmStr (stripP n) = optNmStr n := by
  unfold optNmStr
  rw [nname_stripP, nid_stripP]

theorem classifyStructuralUi_stripP (n : Node) :
    classifyStructuralUi (stripP n) = classifyStructuralUi n := by
  unfold classifyStructuralUi
  rw [ntype_stripP, lowerNameOf_stripP, hasAnySolidFill_stripP, hasStroke_stripP,
    childTextCount_stripP, childIconLikeCount_stripP, resolvedW_stripP,
    resolvedH_stripP, childrenOf_stripP, stripPList_length]

theorem classifyFallback_stripP (n : Node) :
    classifyFallback (stripP n) = classifyFallback n := by
  unfold classifyFallback
  rw [classifyStructuralUi_stripP, nname_stripP]

theorem resolvedInstName_stripP (dict : CompDict) (cid : String) (n : Node) :
    resolvedInstName dict cid (stripP n) = resolvedInstName dict cid n := by
  unfold resolvedInstName
  rw [nname_stripP]

theorem classifyNodeForReport_stripP (dict : CompDict) (n : Node) :
    classifyNodeForReport dict (stripP n) = classifyNodeForReport dict n := by
  unfold classifyNodeForReport
  rw [ntype_stripP, componentIdF_stripP]
  cases hd : decide (n.ntype = some "INSTANCE") <;> cases hc : n.componentIdF <;>
    simp only [resolvedInstName_stripP, classifyFallback_stripP]

/- ======== Lemmas on paths, lookup, and the parent-field update ======== -/

theorem nodeAt_stripP (q : NodePath) : ∀ (t : Node),
    nodeAt (stripP t) q = (nodeAt t q).map stripP := by
  induction q with
  | nil => intro t; simp [nodeAt]
  | cons i p ih =>
    intro t
    show nodeAt (stripP t) (i :: p) = _
    unfold nodeAt
    rw [childrenOf_stripP, stripPList_getElem]
    cases h : t.childrenOf[i]? with
    | none => simp
    | some c => simp [ih c]

theorem nmOf_stripP (t : Node) (q : NodePath) : nmOf (stripP t) q = nmOf t q := by
  unfold nmOf
  rw [nodeAt_stripP]
  cases nodeAt t q with
  | none => simp
  | some n => simp [optNmStr_stripP]

theorem partsSpec_stripP (t : Node) (q : NodePath) :
    partsSpec (stripP t) q = partsSpec t q := by
  suffices h : ∀ (k : Nat) (q2 : NodePath), q2.length ≤ k →
      partsSpec (stripP t) q2 = partsSpec t q2 from h q.length q le_rfl
  intro k
  induction k with
  | zero =>
    intro q2 hq
    cases q2 with
    | nil => simp only [partsSpec]
    | cons i p => simp at hq
  | succ k ih =>
    intro q2 hq
    cases q2 with
    | nil => simp only [partsSpec]
    | cons i p =>
      simp only [partsSpec, nmOf_stripP]
      congr 1
      apply ih
      simp only [List.length_dropLast, List.length_cons] at hq ⊢
      omega

theorem partsSpec_congr (t1 t2 : Node) (h : stripP t1 = stripP t2) (q : NodePath) :
    partsSpec t1 q = partsSpec t2 q := by
  rw [← partsSpec_stripP t1, h, partsSpec_stripP]

theorem nodeAt_congr_strip (t1 t2 : Node) (h : stripP t1 = stripP t2) (q : NodePath) :
    (nodeAt t1 q).map stripP = (nodeAt t2 q).map stripP := by
  rw [← nodeAt_stripP, ← nodeAt_stripP, h]

theorem childrenOf_setPF (t : Node) (v : Option NodePath) :
    (setPF t v).childrenOf = t.childrenOf := by
  cases t
  rfl

theorem parentF_setPF (t : Node) (v : Option NodePath) :
    (setPF t v).parentF = some v := by
  cases t
  rfl

theorem childrenOf_replCh (t : Node) (l : List Node) :
    (replCh t l).childrenOf = l := by
  cases t
  rfl

theorem parentF_replCh (t : Node) (l : List Node) :
    (replCh t l).parentF = t.parentF := by
  cases t
  rfl

theorem stripP_setPF (t : Node) (v : Option NodePath) :
    stripP (setPF t v) = stripP t := by
  cases t
  rw [setPF, stripP_mk, stripP_mk]

theorem setChildAt_getElem (l : List Node) (i : Nat) (p : NodePath)
    (v : Option NodePath) (j : Nat) :
    (setChildAt l i p v)[j]? =
      if j = i then l[j]?.map (fun c => setParentAt c p v) else l[j]? := by
  induction l generalizing i j with
  | nil => simp [setChildAt]
  | cons c cs ih =>
    cases i with
    | zero =>
      cases j with
      | zero => simp [setChildAt]
      | succ j2 => simp [setChildAt]
    | succ i2 =>
      cases j with
      | zero => simp [setChildAt]
      | succ j2 => simpa [setChildAt] using ih i2 j2

mutual

theorem stripP_setParentAt : ∀ (t : Node) (q : NodePath) (v : Option NodePath),
    stripP (setParentAt t q v) = stripP t
  | t, [], v => by
    simp only [setParentAt]
    exact stripP_setPF t v
  | t, i :: p, v => by
    cases t with
    | mk a1 a2 a3 a4 ch a6 a7 a8 a9 a10 a11 a12 a13 a14 a15 =>
      simp only [setParentAt, replCh, Node.childrenOf]
      rw [stripP_mk, stripP_mk, stripPList_setChildAt ch i p v]
termination_by t q v => (q.length, 0)

theorem stripPList_setChildAt : ∀ (l : List Node) (i : Nat) (p : NodePath)
      (v : Option NodePath),
    stripPList (setChildAt l i p v) = stripPList l
  | [], _, _, _ => by simp [setChildAt]
  | c :: cs, 0, p, v => by
    simp only [setChildAt, stripPList]
    rw [stripP_setParentAt c p v]
  | c :: cs, i + 1, p, v => by
    simp only [setChildAt, stripPList]
    rw [stripPList_setChildAt cs i p v]
termination_by l i p v => (p.length, l.length)

end

theorem parentFAt_nil (t : Node) : parentFAt t [] = t.parentF := by
  simp [parentFAt, nodeAt]

theorem parentFAt_cons (t : Node) (i : Nat) (p : NodePath) :
    parentFAt t (i :: p) =
      (match t.childrenOf[i]? with
       | some c => parentFAt c p
       | none => none) := by
  cases hc : t.childrenOf[i]? <;> simp [parentFAt, nodeAt, hc]

theorem isSome_nodeAt_cons (t : Node) (i : Nat) (p : NodePath) (c : Node)
    (hc : t.childrenOf[i]? = some c) :
    (nodeAt t (i :: p)).isSome = (nodeAt c p).isSome := by
  simp [nodeAt, hc]

theorem parentFAt_set_same : ∀ (t : Node) (q : NodePath) (v : Option NodePath),
    (nodeAt t q).isSome = true → parentFAt (setParentAt t q v) q = some v
  | t, [], v => by
    intro _
    simp only [setParentAt, parentFAt_nil, parentF_setPF]
  | t, i :: p, v => by
    intro h
    simp only [setParentAt, parentFAt_cons, childrenOf_replCh, setChildAt_getElem,
      if_pos rfl]
    cases hc : t.childrenOf[i]? with
    | none => simp [nodeAt, hc] at h
    | some c =>
      have h2 : (nodeAt c p).isSome = true := by
        rw [← isSome_nodeAt_cons t i p c hc]
        exact h
      simpa using parentFAt_set_same c p v h2
termination_by t q v => q.length

theorem parentFAt_set_other : ∀ (t : Node) (q : NodePath) (v : Option NodePath)
      (r : NodePath), r ≠ q →
    parentFAt (setParentAt t q v) r = parentFAt t r
  | t, [], v, r, hr => by
    cases r with
    | nil => exact absurd rfl hr
    | cons j r2 =>
      simp only [setParentAt, parentFAt_cons, childrenOf_setPF]
  | t, i :: p, v, r, hr => by
    cases r with
    | nil => simp only [setParentAt, parentFAt_nil, parentF_replCh]
    | cons j r2 =>
      simp only [setParentAt, parentFAt_cons, childrenOf_replCh, setChildAt_getElem]
      by_cases hji : j = i
      · subst hji
        simp only [if_pos rfl]
        cases hc : t.childrenOf[j]? with
        | none => simp
        | some c =>
          have hr2 : r2 ≠ p := by
            intro hh
            exact hr (by rw [hh])
          simpa using parentFAt_set_other c p v r2 hr2
      · simp [hji]
termination_by t q v r => q.length

theorem nodeAt_append (q r : NodePath) : ∀ (t : Node),
    nodeAt t (q ++ r) = (nodeAt t q).bind (fun n => nodeAt n r) := by
  induction q with
  | nil => intro t; simp [nodeAt]
  | cons i p ih =>
    intro t
    show nodeAt t (i :: (p ++ r)) = _
    cases hc : t.childrenOf[i]? with
    | none => simp [nodeAt, hc]
    | some c => simp [nodeAt, hc, ih c]

/- ======== Lemmas on the path-prefix relation ======== -/

theorem pathPre_refl (q : NodePath) : PathPre q q := ⟨[], List.append_nil q⟩

theorem pathPre_nil (r : NodePath) (h : PathPre r []) : r = [] := by
  obtain ⟨s, hs⟩ := h
  exact (List.append_eq_nil.mp hs).1

theorem pathPre_snoc (r q : NodePath) (i : Nat) :
    PathPre r (q ++ [i]) ↔ PathPre r q ∨ r = q ++ [i] := by
  constructor
  · rintro ⟨s, hs⟩
    rcases List.eq_nil_or_concat' s with h | ⟨s2, a, h⟩
    · subst h
      exact Or.inr (by simpa using hs)
    · subst h
      rw [← List.append_assoc] at hs
      have h2 := congrArg List.dropLast hs
      rw [List.dropLast_concat, List.dropLast_concat] at h2
      exact Or.inl ⟨s2, h2⟩
  · rintro (⟨s, hs⟩ | h)
    · exact ⟨s ++ [i], by rw [← List.append_assoc, hs]⟩
    · exact h ▸ pathPre_refl _

theorem parentOfPath_snoc (q : NodePath) (i : Nat) :
    parentOfPath (q ++ [i]) = some q := by
  cases q with
  | nil => simp [parentOfPath]
  | cons a q2 =>
    show parentOfPath (a :: (q2 ++ [i])) = _
    simp only [parentOfPath]
    rw [show a :: (q2 ++ [i]) = (a :: q2) ++ [i] from rfl, List.dropLast_concat]

/-- The `makePath` walk, run with correctly-written parent links along the
whole ancestor chain of `q`, produces exactly the specification parts list
(appended after the accumulator). -/
theorem walkChain_spec (st : Node) :
    ∀ (k : Nat) (q : NodePath), q.length ≤ k →
    (∀ r, PathPre r q → parentFAt st r = some (parentOfPath r)) →
    ∀ parts : List String,
      walkChain st q.length (some q) parts = parts ++ partsSpec st q := by
  intro k
  induction k with
  | zero =>
    intro q hq _ parts
    cases q with
    | nil => simp [walkChain, partsSpec]
    | cons i p => simp at hq
  | succ k ih =>
    intro q hq hch parts
    cases q with
    | nil => simp [walkChain, partsSpec]
    | cons i p =>
      have hq2 : parentFAt st (i :: p) = some (parentOfPath (i :: p)) :=
        hch (i :: p) (pathPre_refl _)
      cases hn : nodeAt st (i :: p) with
      | none => simp [parentFAt, hn] at hq2
      | some n =>
        have hpf : n.parentF = some (parentOfPath (i :: p)) := by
          simpa [parentFAt, hn] using hq2
        have hne : (i :: p) ≠ ([] : NodePath) := by simp
        have hsplit : (i :: p).dropLast ++ [(i :: p).getLast hne] = i :: p :=
          List.dropLast_append_getLast hne
        have hl : ((i :: p).dropLast).length = p.length := by
          simp [List.length_dropLast]
        have hpo : parentOfPath (i :: p) = some ((i :: p).dropLast) := by
          simp [parentOfPath]
        show walkChain st (p.length + 1) (some (i :: p)) parts = _
        simp only [walkChain, hn]
        have hstep : (match n.parentF with | some v => v | none => none)
            = some ((i :: p).dropLast) := by
          rw [hpf]
          simp [hpo]
        rw [hstep]
        have hch2 : ∀ r, PathPre r ((i :: p).dropLast) →
            parentFAt st r = some (parentOfPath r) := by
          intro r hr
          apply hch
          rw [← hsplit]
          exact (pathPre_snoc r ((i :: p).dropLast) ((i :: p).getLast hne)).mpr
            (Or.inl hr)
        have hrec := ih ((i :: p).dropLast)
          (by simp only [List.length_dropLast, List.length_cons] at hq ⊢; omega)
          hch2 (if optNmStr n = "" then parts else parts ++ [optNmStr n])
        rw [hl] at hrec
        simp only [optNmStr] at hrec
        rw [hrec]
        have hnm : nmOf st (i :: p) = jsOrS n.nname (jsOrS n.nid "") := by
          simp [nmOf, hn, optNmStr]
        simp only [partsSpec, hnm]
        by_cases he : jsOrS n.nname (jsOrS n.nid "") = ""
        · simp [he]
        · simp [he, List.append_assoc]

theorem partsSpec_snoc (t : Node) (q : NodePath) (i : Nat) :
    partsSpec t (q ++ [i]) =
      (if nmOf t (q ++ [i]) = "" then [] else [nmOf t (q ++ [i])])
        ++ partsSpec t q := by
  cases q with
  | nil => simp [partsSpec]
  | cons a q2 =>
    show partsSpec t (a :: (q2 ++ [i])) = _
    simp only [partsSpec]
    rw [show a :: (q2 ++ [i]) = (a :: q2) ++ [i] from rfl, List.dropLast_concat]
    simp only [partsSpec]

mutual

theorem travRun_spec : ∀ (dict : CompDict) (pageName : String) (shape : Node)
      (q : NodePath) (st : Node),
    (nodeAt st q).map stripP = some (stripP shape) →
    (∀ r, PathPre r q → r ≠ q → parentFAt st r = some (parentOfPath r)) →
    stripP (travRun dict pageName shape q st).1 = stripP st
    ∧ (∀ r, parentFAt st r = some (parentOfPath r) →
        parentFAt (travRun dict pageName shape q st).1 r = some (parentOfPath r))
    ∧ (travRun dict pageName shape q st).2
        = pureRun dict pageName shape (partsSpec st q)
  | dict, pageName, .mk a1 a2 a3 a4 ch a6 a7 a8 a9 a10 a11 a12 a13 a14 a15, q, st => by
    intro hN hC
    have hsome : (nodeAt st q).isSome = true := by
      cases hn : nodeAt st q with
      | none => rw [hn] at hN; simp at hN
      | some n1 => simp
    have hstrip1 : stripP (setParentAt st q (parentOfPath q)) = stripP st :=
      stripP_setParentAt st q (parentOfPath q)
    have hch1 : ∀ r, PathPre r q →
        parentFAt (setParentAt st q (parentOfPath q)) r = some (parentOfPath r) := by
      intro r hr
      by_cases hrq : r = q
      · subst hrq
        exact parentFAt_set_same st r (parentOfPath r) hsome
      · rw [parentFAt_set_other st q (parentOfPath q) r hrq]
        exact hC r hr hrq
    have hN1 : (nodeAt (setParentAt st q (parentOfPath q)) q).map stripP
        = some (stripP (.mk a1 a2 a3 a4 ch a6 a7 a8 a9 a10 a11 a12 a13 a14 a15)) := by
      rw [nodeAt_congr_strip _ st hstrip1 q]
      exact hN
    obtain ⟨n1, hn1, hsn1⟩ : ∃ n1,
        nodeAt (setParentAt st q (parentOfPath q)) q = some n1
          ∧ stripP n1
            = stripP (.mk a1 a2 a3 a4 ch a6 a7 a8 a9 a10 a11 a12 a13 a14 a15) := by
      cases hn : nodeAt (setParentAt st q (parentOfPath q)) q with
      | none => rw [hn] at hN1; simp at hN1
      | some n1 =>
        rw [hn] at hN1
        simp only [Option.map_some'] at hN1
        exact ⟨n1, rfl, by injection hN1⟩
    have hclassify : classifyNodeForReport dict n1
        = classifyNodeForReport dict
            (.mk a1 a2 a3 a4 ch a6 a7 a8 a9 a10 a11 a12 a13 a14 a15) := by
      rw [← classifyNodeForReport_stripP dict n1, hsn1,
        classifyNodeForReport_stripP]
    have hpath : makePathAt (setParentAt st q (parentOfPath q)) pageName q =
        String.intercalate " / " ((partsSpec st q ++ [pageName]).reverse) := by
      unfold makePathAt
      rw [walkChain_spec (setParentAt st q (parentOfPath q)) q.length q le_rfl
        hch1 []]
      rw [List.nil_append, partsSpec_congr _ st hstrip1]
    have hvisit : visitOut dict pageName (setParentAt st q (parentOfPath q)) q =
        (match classifyNodeForReport dict
            (.mk a1 a2 a3 a4 ch a6 a7 a8 a9 a10 a11 a12 a13 a14 a15) with
         | none => []
         | some (nm, cat) =>
            [(cat, nm,
              String.intercalate " / " ((partsSpec st q ++ [pageName]).reverse))]) := by
      unfold visitOut
      rw [hn1]
      show (match classifyNodeForReport dict n1 with
        | none => []
        | some (nm, cat) =>
          [(cat, nm, makePathAt (setParentAt st q (parentOfPath q)) pageName q)]) = _
      rw [hclassify, hpath]
    have hKs : ∀ j c, ch[j]? = some c →
        (nodeAt (setParentAt st q (parentOfPath q)) (q ++ [0 + j])).map stripP
          = some (stripP c) := by
      intro j c hjc
      rw [Nat.zero_add]
      rw [nodeAt_congr_strip _ st hstrip1]
      rw [nodeAt_append q [j] st]
      cases hn : nodeAt st q with
      | none => rw [hn] at hN; simp at hN
      | some n0 =>
        rw [hn] at hN
        simp only [Option.map_some'] at hN
        have hsn0 : stripP n0
            = stripP (.mk a1 a2 a3 a4 ch a6 a7 a8 a9 a10 a11 a12 a13 a14 a15) := by
          injection hN
        have hch0 : stripPList n0.childrenOf = stripPList ch := by
          have := congrArg Node.childrenOf hsn0
          rw [childrenOf_stripP, childrenOf_stripP] at this
          simpa using this
        show (nodeAt n0 [j]).map stripP = some (stripP c)
        show ((match n0.childrenOf[j]? with
          | some c2 => nodeAt c2 []
          | none => none)).map stripP = some (stripP c)
        have hg : n0.childrenOf[j]?.map stripP = some (stripP c) := by
          rw [← stripPList_getElem, hch0, stripPList_getElem, hjc]
          rfl
        cases hg2 : n0.childrenOf[j]? with
        | none => rw [hg2] at hg; simp at hg
        | some c2 =>
          rw [hg2] at hg
          simp only [Option.map_some'] at hg
          simp [nodeAt, hg]
    have hkids := travKids_spec dict pageName ch q 0
      (setParentAt st q (parentOfPath q)) hKs hch1
    obtain ⟨k1, k2, k3⟩ := hkids
    refine ⟨?_, ?_, ?_⟩
    · simp only [travRun]
      rw [k1, hstrip1]
    · intro r hr
      simp only [travRun]
      apply k2
      by_cases hrq : r = q
      · subst hrq
        exact parentFAt_set_same st r (parentOfPath r) hsome
      · rw [parentFAt_set_other st q (parentOfPath q) r hrq]
        exact hr
    · simp only [travRun]
      rw [hvisit, k3, partsSpec_congr _ st hstrip1]
      simp only [pureRun]
termination_by dict pageName shape q st => sizeOf shape

theorem travKids_spec : ∀ (dict : CompDict) (pageName : String) (cs : List Node)
      (q : NodePath) (i : Nat) (st : Node),
    (∀ j c, cs[j]? = some c →
      (nodeAt st (q ++ [i + j])).map stripP = some (stripP c)) →
    (∀ r, PathPre r q → parentFAt st r = some (parentOfPath r)) →
    stripP (travKids dict pageName cs q i st).1 = stripP st
    ∧ (∀ r, parentFAt st r = some (parentOfPath r) →
        parentFAt (travKids dict pageName cs q i st).1 r = some (parentOfPath r))
    ∧ (travKids dict pageName cs q i st).2
        = pureKids dict pageName cs (partsSpec st q)
  | dict, pageName, [], q, i, st => by
    intro _ _
    refine ⟨by simp [travKids], fun r hr => by simpa [travKids] using hr, ?_⟩
    simp [travKids, pureKids]
  | dict, pageName, c :: cs, q, i, st => by
    intro hKs hCK
    have hNc : (nodeAt st (q ++ [i])).map stripP = some (stripP c) := by
      have := hKs 0 c (by simp)
      rwa [Nat.add_zero] at this
    have hCc : ∀ r, PathPre r (q ++ [i]) → r ≠ q ++ [i] →
        parentFAt st r = some (parentOfPath r) := by
      intro r hr hne
      rcases (pathPre_snoc r q i).mp hr with h | h
      · exact hCK r h
      · exact absurd h hne
    have h1 := travRun_spec dict pageName c (q ++ [i]) st hNc hCc
    obtain ⟨g1, g2, g3⟩ := h1
    have hnmc : nmOf st (q ++ [i]) = optNmStr c := by
      unfold nmOf
      cases hn : nodeAt st (q ++ [i]) with
      | none => rw [hn] at hNc; simp at hNc
      | some c1 =>
        rw [hn] at hNc
        simp only [Option.map_some'] at hNc
        have : stripP c1 = stripP c := by injection hNc
        show optNmStr c1 = optNmStr c
        rw [← optNmStr_stripP c1, this, optNmStr_stripP]
    have hparts : partsSpec st (q ++ [i]) =
        (if optNmStr c = "" then [] else [optNmStr c]) ++ partsSpec st q := by
      rw [partsSpec_snoc, hnmc]
    have hKs2 : ∀ j c2, cs[j]? = some c2 →
        (nodeAt (travRun dict pageName c (q ++ [i]) st).1 (q ++ [i + 1 + j])).map
          stripP = some (stripP c2) := by
      intro j c2 hjc
      rw [nodeAt_congr_strip _ st g1]
      have := hKs (j + 1) c2 (by simpa using hjc)
      rwa [show i + (j + 1) = i + 1 + j by omega] at this
    have hCK2 : ∀ r, PathPre r q →
        parentFAt (travRun dict pageName c (q ++ [i]) st).1 r
          = some (parentOfPath r) := by
      intro r hr
      exact g2 r (hCK r hr)
    have h2 := travKids_spec dict pageName cs q (i + 1)
      (travRun dict pageName c (q ++ [i]) st).1 hKs2 hCK2
    obtain ⟨k1, k2, k3⟩ := h2
    refine ⟨?_, ?_, ?_⟩
    · simp only [travKids]
      rw [k1, g1]
    · intro r hr
      simp only [travKids]
      exact k2 r (g2 r hr)
    · simp only [travKids]
      rw [k3, partsSpec_congr _ st g1, g3, hparts]
      simp only [pureKids]
termination_by dict pageName cs q i st => sizeOf cs

end

mutual

theorem pureRun_stripP : ∀ (dict : CompDict) (pn : String) (x : Node)
      (sp : List String),
    pureRun dict pn (stripP x) sp = pureRun dict pn x sp
  | dict, pn, .mk a1 a2 a3 a4 ch a6 a7 a8 a9 a10 a11 a12 a13 a14 a15, sp => by
    have hcls := classifyNodeForReport_stripP dict
      (.mk a1 a2 a3 a4 ch a6 a7 a8 a9 a10 a11 a12 a13 a14 a15)
    rw [stripP_mk] at hcls
    rw [stripP_mk]
    simp only [pureRun]
    rw [hcls, pureKids_stripPList dict pn ch sp]
termination_by dict pn x sp => sizeOf x

theorem pureKids_stripPList : ∀ (dict : CompDict) (pn : String) (l : List Node)
      (sp : List String),
    pureKids dict pn (stripPList l) sp = pureKids dict pn l sp
  | dict, pn, [], sp => by
    simp only [stripPList]
  | dict, pn, c :: cs, sp => by
    simp only [stripPList, pureKids]
    rw [optNmStr_stripP, pureRun_stripP dict pn c, pureKids_stripPList dict pn cs]
termination_by dict pn l sp => sizeOf l

end

/-- The report part of one page run, in pure form. -/
theorem pageRun_fst (dict : CompDict) (p : Node) :
    (pageRun dict p).1 =
      ⟨jsOrS p.nname "(isimsiz sayfa)",
       pickCat .button (pureRun dict (jsOrS p.nname "(isimsiz sayfa)") p []),
       pickCat .input (pureRun dict (jsOrS p.nname "(isimsiz sayfa)") p []),
       pickCat .card (pureRun dict (jsOrS p.nname "(isimsiz sayfa)") p [])⟩ := by
  have h := travRun_spec dict (jsOrS p.nname "(isimsiz sayfa)") p [] p
    (by simp [nodeAt]) (fun r hr hne => absurd (pathPre_nil r hr) hne)
  have hparts : partsSpec p ([] : NodePath) = [] := by simp only [partsSpec]
  simp only [pageRun]
  rw [h.2.2, hparts]

/-- The state part of one page run strips to the original page. -/
theorem pageRun_snd_strip (dict : CompDict) (p : Node) :
    stripP (pageRun dict p).2 = stripP p := by
  have h := travRun_spec dict (jsOrS p.nname "(isimsiz sayfa)") p [] p
    (by simp [nodeAt]) (fun r hr hne => absurd (pathPre_nil r hr) hne)
  simp only [pageRun]
  exact h.1

/-- The page report depends only on the stripped page. -/
theorem pageRun_fst_congr (dict : CompDict) (a b : Node)
    (h : stripP a = stripP b) :
    (pageRun dict a).1 = (pageRun dict b).1 := by
  have hn : a.nname = b.nname := by
    rw [← nname_stripP a, h, nname_stripP]
  have hp : pureRun dict (jsOrS b.nname "(isimsiz sayfa)") a []
      = pureRun dict (jsOrS b.nname "(isimsiz sayfa)") b [] := by
    rw [← pureRun_stripP dict _ a, h, pureRun_stripP]
  rw [pageRun_fst, pageRun_fst, hn, hp]

/-- C4: the UI-classification report is idempotent: running it a second time
over the tree left behind by the first run (with its `__parent` bookkeeping
still attached) produces the identical report. -/
theorem ui_classification_idempotent (dict : CompDict) (pages : List Node) :
    (uiMain dict (uiMain dict pages).2).1 = (uiMain dict pages).1 := by
  unfold uiMain
  simp only [List.map_map]
  apply List.map_congr_left
  intro p _
  show (pageRun dict ((pageRun dict p).2)).1 = (pageRun dict p).1
  exact pageRun_fst_congr dict _ p (pageRun_snd_strip dict p)

/-- C3 amended: the classification run touches nothing except the `__parent`
back-reference: erasing that field from the returned pages yields exactly
the erased input pages. -/
theorem ui_classification_strip (dict : CompDict) (pages : List Node) :
    ((uiMain dict pages).2).map stripP = pages.map stripP := by
  unfold uiMain
  simp only [List.map_map]
  apply List.map_congr_left
  intro p _
  show stripP (pageRun dict p).2 = stripP p
  exact pageRun_snd_strip dict p

/-- C3 counterexample: the classification run does mutate its input — after
one run over a one-node page the page object has acquired a `__parent`
property, so the tree is not unchanged. -/
theorem ui_classification_mutation_cex :
    (uiMain [] [blankNode]).2 ≠ [blankNode] := by
  have heval : ((pageRun [] blankNode).2).parentF = some none := by
    unfold pageRun blankNode
    simp only [travRun, travKids, setParentAt, setPF, parentOfPath]
    rfl
  intro h
  have h2 := congrArg pfOfFirst h
  simp only [uiMain, List.map_cons, List.map_nil, pfOfFirst] at h2
  rw [heval] at h2
  have h3 : blankNode.parentF = none := by rfl
  rw [h3] at h2
  simp at h2
